import Mathlib

/-!
Shallow embedding of `files/installer.py` and `files/setup.py` from the
`base-test-container` repository, together with theorems checking the
natural-language specification against the code.

Python strings are modelled as Lean `String`/`List Char`, Python `int` as
`Int`, Python dicts as insertion-ordered association lists, exceptions as
`Except`/`Option`, and the filesystem / subprocess side effects of the
orchestrator as an explicit state-and-trace monad.  Subprocess results,
downloads and directory listings are external collaborators and are
supplied by an `Env` record.
-/

/-! ## Python string primitives -/

/-- Whitespace characters stripped by `str.strip()` (ASCII range). -/
def pyIsSpace (c : Char) : Bool :=
  c = ' ' || c = '\t' || c = '\n' || c = '\x0d' || c = '\x0b' || c = '\x0c'

/-- `str.strip()` on a character list: drop whitespace from both ends. -/
def pyStripChars (cs : List Char) : List Char :=
  ((cs.dropWhile pyIsSpace).reverse.dropWhile pyIsSpace).reverse

/-- `str.strip()` on a `String`. -/
def pyStrip (s : String) : String :=
  ⟨pyStripChars s.data⟩

def isDigitChar (c : Char) : Bool :=
  '0' ≤ c && c ≤ '9'

def digitVal (c : Char) : Nat :=
  c.toNat - 48

/-- Digits of a Python decimal integer literal after the first digit:
digit groups optionally separated by single underscores, as accepted by
`int(str)` in Python ≥ 3.6.  `acc` is the value of the digits read so far. -/
def pyDigitsCore : List Char → Nat → Option Nat
  | [], acc => some acc
  | '_' :: c :: rest, acc =>
      if isDigitChar c then pyDigitsCore rest (acc * 10 + digitVal c) else none
  | ['_'], _ => none
  | c :: rest, acc =>
      if isDigitChar c then pyDigitsCore rest (acc * 10 + digitVal c) else none

/-- The digit part of a Python decimal integer literal: nonempty, starts with
a digit, underscores only between digits. -/
def pyDigits : List Char → Option Nat
  | [] => none
  | c :: rest => if isDigitChar c then pyDigitsCore rest (digitVal c) else none

/-- Python `int(s)` for a base-10 string: strip whitespace, optional sign,
then the digit part.  `none` models `ValueError`. -/
def pyIntChars (cs : List Char) : Option Int :=
  match pyStripChars cs with
  | '+' :: rest => (pyDigits rest).map Int.ofNat
  | '-' :: rest => (pyDigits rest).map fun n => -(n : Int)
  | stripped => (pyDigits stripped).map Int.ofNat

/-- Python `s.split('.')`: split on every dot, keeping empty pieces
(`''.split('.') == ['']`, `'a..b'.split('.') == ['a', '', 'b']`). -/
def splitOnDot : List Char → List (List Char)
  | [] => [[]]
  | c :: rest =>
      match splitOnDot rest with
      | [] => [[c]]
      | g :: gs => if c = '.' then [] :: g :: gs else (c :: g) :: gs

/-- Left-to-right traversal with failure propagation, the evaluation order
of a Python generator expression that can raise. -/
def mapOption {α β : Type} (f : α → Option β) : List α → Option (List β)
  | [] => some []
  | a :: l =>
      match f a with
      | none => none
      | some b =>
          match mapOption f l with
          | none => none
          | some bs => some (b :: bs)

/-- Left-to-right traversal with exception propagation, the evaluation order
of a Python dict comprehension that can raise. -/
def mapExcept {ε α β : Type} (f : α → Except ε β) : List α → Except ε (List β)
  | [] => .ok []
  | a :: l =>
      match f a with
      | .error e => .error e
      | .ok b =>
          match mapExcept f l with
          | .error e => .error e
          | .ok bs => .ok (b :: bs)

instance {ε α : Type} [DecidableEq ε] [DecidableEq α] : DecidableEq (Except ε α) := fun x y =>
  match x, y with
  | .ok a, .ok b =>
      if h : a = b then .isTrue (by rw [h]) else .isFalse fun hc => h (Except.ok.inj hc)
  | .error e, .error f =>
      if h : e = f then .isTrue (by rw [h]) else .isFalse fun hc => h (Except.error.inj hc)
  | .ok _, .error _ => .isFalse fun hc => Except.noConfusion hc
  | .error _, .ok _ => .isFalse fun hc => Except.noConfusion hc

/-! ## `installer.str_to_version` -/

/-- `str_to_version(version)`: `tuple(int(n) for n in version.split('.'))`.
`none` models the `ValueError` raised when a component is not an integer. -/
def str_to_version (version : String) : Option (List Int) :=
  mapOption pyIntChars (splitOnDot version.data)

/-! ## Decimal representation (Python `str(int)`), used by serialization -/

/-- The character for the decimal digit `n` (callers pass `n < 10`). -/
def decDigit (n : Nat) : Char :=
  match n with
  | 0 => '0' | 1 => '1' | 2 => '2' | 3 => '3' | 4 => '4'
  | 5 => '5' | 6 => '6' | 7 => '7' | 8 => '8' | _ => '9'

/-- Fuelled decimal digit production for `str(n)`. -/
def natReprAux : Nat → Nat → List Char
  | 0, _ => []
  | fuel + 1, n =>
      if n < 10 then [decDigit n]
      else natReprAux fuel (n / 10) ++ [decDigit (n % 10)]

/-- The decimal digits of `n`, most significant first. -/
def natReprChars (n : Nat) : List Char :=
  natReprAux (n + 1) n

/-- Python `str(n)` for a natural number. -/
def natRepr (n : Nat) : String :=
  ⟨natReprChars n⟩

/-- Python `str(i)` for an integer. -/
def intRepr (i : Int) : String :=
  if i < 0 then "-" ++ natRepr i.natAbs else natRepr i.natAbs

/-- Python `'.'.join(parts)`. -/
def joinDot : List String → String
  | [] => ""
  | [s] => s
  | s :: rest => s ++ "." ++ joinDot rest

/-- Re-serialize a version key the way the code renders versions:
join the decimal components with dots
(`'.'.join(str(v) for v in version)`). -/
def serializeVersion (version : List Int) : String :=
  joinDot (version.map intRepr)

/-! ## Python tuple comparison on version keys -/

/-- Python `tuple.__lt__` on integer tuples: lexicographic by value, a
strict prefix is smaller. -/
def pyListLt : List Int → List Int → Bool
  | [], [] => false
  | [], _ :: _ => true
  | _ :: _, [] => false
  | a :: as, b :: bs => if a < b then true else if b < a then false else pyListLt as bs

/-- The non-strict order used by a stable sort on `pyListLt` keys. -/
def pyListLe (a b : List Int) : Bool :=
  !(pyListLt b a)

/-! ## Interpreters and sorting (`installer.Python`, `installer.sort_pythons`) -/

/-- `installer.Python`: details of a Python interpreter. -/
structure Python where
  path : String
  version : String
deriving DecidableEq

/-- The sort key used by `sort_pythons` when a `last` interpreter is given:
`tuple([100]) if item.version == last.version else str_to_version(item.version)`. -/
def sortKey (last : Python) (item : Python) : Option (List Int) :=
  if item.version = last.version then some [100] else str_to_version item.version

/-- Comparison on key-decorated interpreters used by the stable sort. -/
def keyedLe (a b : Python × List Int) : Prop :=
  pyListLe a.2 b.2 = true

instance : DecidableRel keyedLe := fun a b => by
  unfold keyedLe
  infer_instance

/-- `sort_pythons(pythons, last)`: stable sort by key.  The keys are computed
first (Python `sorted` evaluates the key function once per element, raising
`ValueError` out of `str_to_version` for a malformed version, modelled by
`none`); then a stable sort orders the decorated list. -/
def sort_pythons (pythons : List Python) (last : Option Python) : Option (List Python) :=
  match last with
  | some lastPython =>
      (mapOption (fun item => (sortKey lastPython item).map fun k => (item, k)) pythons).map
        fun keyed => (keyed.insertionSort keyedLe).map Prod.fst
  | none =>
      (mapOption (fun item => (str_to_version item.version).map fun k => (item, k)) pythons).map
        fun keyed => (keyed.insertionSort keyedLe).map Prod.fst

/-- Comparison of two interpreters by parsed version key (`false` when a
version fails to parse); used to state ascending order of a result list. -/
def verLeB (x y : Python) : Bool :=
  match str_to_version x.version, str_to_version y.version with
  | some kx, some ky => pyListLe kx ky
  | _, _ => false

/-- An interpreter whose version parses to a key strictly below the `(100,)`
sentinel that `sort_pythons` assigns to the default interpreter. -/
def versionBelowSentinel (p : Python) : Bool :=
  match str_to_version p.version with
  | some k => pyListLt k [100]
  | none => false

/-- The ordering property claimed for `sort_pythons(pythons, last)`: the
result is a permutation of the input, every interpreter with the default
version sits strictly after all others, and the others are ascending by
numeric version key. -/
def defaultLastOrdered (default : Python) (input result : List Python) : Prop :=
  result.Perm input ∧
  result.Pairwise (fun x y => x.version = default.version → y.version = default.version) ∧
  (result.filter fun item => !(item.version == default.version)).Pairwise
    (fun x y => verLeB x y = true)

/-! ## Errors -/

/-- Failure modes of the embedded code (Python exceptions). -/
inductive PyError where
  /-- `setup.main` raises when `/tmp` is not empty at the start of the run. -/
  | dirtyEnvironment (entries : List String)
  /-- `subprocess.run(..., check=True)` exited non-zero. -/
  | calledProcessError (argv : List String)
  /-- Python `KeyError` from a dict lookup. -/
  | keyError (name : String)
  /-- `os.unlink` on a path that does not exist. -/
  | fileNotFoundError (path : String)
  /-- `ValueError` (malformed version string). -/
  | valueError
  /-- `urllib` download failure. -/
  | downloadError (url : String)
deriving DecidableEq

/-! ## `installer.Pip` configuration tables -/

def Pip.PIP_INDEX : String := "https://d2c8fqinjk13kw.cloudfront.net/simple/"

/-- `Pip.PIP_PROXY_VERSIONS = tuple()` — the shipped proxy set is empty. -/
def Pip.PIP_PROXY_VERSIONS : List String := []

/-- `Pip._OPTIONS`. -/
def Pip.OPTIONS : List String := ["--disable-pip-version-check"]

/-- `Pip._DEFAULT_PACKAGES = dict(pip='24.2')`. -/
def Pip.DEFAULT_PACKAGES : List (String × String) := [("pip", "24.2")]

/-- `Pip._PACKAGES = {}` — the shipped per-version override table is empty.
An entry value of `""` is falsy in Python and stands for "use default". -/
def Pip.PACKAGES : List (String × List (String × String)) := []

/-- One entry of the `Pip.__init__` comprehension:
`name: version or self._DEFAULT_PACKAGES[name]` — a falsy pinned version is
replaced by the default table's pin, raising `KeyError` when absent. -/
def substPin (defaults : List (String × String)) (entry : String × String) :
    Except PyError (String × String) :=
  if entry.2 = "" then
    match defaults.lookup entry.1 with
    | some v => .ok (entry.1, v)
    | none => .error (.keyError entry.1)
  else .ok entry

/-- The dict comprehension in `Pip.__init__`: look the interpreter version
up in the override table, falling back to the default table, and substitute
each entry through `substPin`. -/
def resolvePackages (packages : List (String × List (String × String)))
    (defaults : List (String × String)) (version : String) :
    Except PyError (List (String × String)) :=
  mapExcept (substPin defaults) ((packages.lookup version).getD defaults)

/-- The state built by `Pip.__init__`. -/
structure PipState where
  python : Python
  packages : List (String × String)
  version : String
deriving DecidableEq

/-- `Pip.__init__`: resolve the pin table for the interpreter version, then
read `self.version = self.packages['pip']` (a `KeyError` if absent). -/
def Pip.init (packagesTable : List (String × List (String × String)))
    (defaults : List (String × String)) (python : Python) :
    Except PyError PipState :=
  match resolvePackages packagesTable defaults python.version with
  | .error e => .error e
  | .ok pkgs =>
      match pkgs.lookup "pip" with
      | some v => .ok ⟨python, pkgs, v⟩
      | none => .error (.keyError "pip")

/-- `version.replace('.', '_')`. -/
def replaceDots (s : String) : String :=
  ⟨s.data.map fun c => if c = '.' then '_' else c⟩

/-- `self._get_pip_path`. -/
def get_pip_path (pipVersion : String) : String :=
  "/tmp/get_pip_" ++ replaceDots pipVersion ++ ".py"

/-- `os.path.dirname(os.path.abspath(__file__))` — a fixed directory in the
container image. -/
def installerDir : String := "/files"

/-- `self._pip_command`. -/
def pipCommand (python : Python) : List String :=
  [python.path, "-B", installerDir ++ "/quiet_pip.py"]

/-! ## Effect monad: filesystem state plus an action trace -/

/-- Externally visible actions of the orchestrator, in order. -/
inductive Act where
  | sectionMsg (message : String)
  | infoMsg (message : String)
  | runProc (argv : List String)
  | downloadFile (url : String)
deriving DecidableEq

/-- The filesystem state the code manipulates: the entries of `/tmp` and
whether `~/.pydistutils.cfg` exists. -/
structure FS where
  tmpFiles : List String
  distutilsCfg : Bool
deriving DecidableEq

/-- State-and-trace monad with Python exception propagation. -/
def M (α : Type) : Type :=
  FS × List Act → Except PyError α × FS × List Act

instance : Monad M where
  pure a := fun s => (.ok a, s.1, s.2)
  bind x f := fun s =>
    match x s with
    | (.ok a, fs, tr) => f a (fs, tr)
    | (.error e, fs, tr) => (.error e, fs, tr)

def M.emit (a : Act) : M Unit := fun s => (.ok (), s.1, s.2 ++ [a])

def M.throw {α : Type} (e : PyError) : M α := fun s => (.error e, s.1, s.2)

def M.getFS : M FS := fun s => (.ok s.1, s.1, s.2)

def M.setFS (fs : FS) : M Unit := fun s => (.ok (), fs, s.2)

def M.ofExcept {α : Type} (x : Except PyError α) : M α := fun s => (x, s.1, s.2)

/-- Python `try: body finally: handler`: the handler always runs; an
exception raised by the handler replaces the in-flight outcome. -/
def tryFinallyM {α : Type} (body : M α) (handler : M Unit) : M α := fun s =>
  match body s with
  | (res, fs, tr) =>
      match handler (fs, tr) with
      | (.ok _, fs', tr') => (res, fs', tr')
      | (.error e', fs', tr') => (.error e', fs', tr')

/-- `display.section(message)`. -/
def display_sect (message : String) : M Unit := M.emit (.sectionMsg message)

/-- `display.info(message)`. -/
def display_info (message : String) : M Unit := M.emit (.infoMsg message)

/-! ## External environment -/

/-- Results supplied by the outside world: initial filesystem content,
directory listing, subprocess outcomes and download outcomes. -/
structure Env where
  /-- Entries of `/tmp` when the run starts. -/
  tmpEntries : List String
  /-- Whether `~/.pydistutils.cfg` exists when the run starts. -/
  distutilsCfg0 : Bool
  /-- `os.listdir('/usr/bin')`. -/
  usrBinNames : List String
  /-- stdout of the default-interpreter version query; `none` models a
  non-zero exit of the subprocess. -/
  defaultPyOutput : Option String
  /-- Whether `subprocess.run(argv, check=True)` succeeds. -/
  runOk : List String → Bool
  /-- Parsed output of `pip list --format=json` per interpreter; `none`
  models a failing subprocess. -/
  pipListOutput : Python → Option (List (String × String))
  /-- Whether downloading the given URL succeeds. -/
  downloadOk : String → Bool

/-- `subprocess.run(argv, check=True)` with no captured output. -/
def subprocessRun (env : Env) (argv : List String) : M Unit := do
  M.emit (.runProc argv)
  if env.runOk argv then pure () else M.throw (.calledProcessError argv)

/-! ## `installer.get_default_python` and `installer.get_pythons` -/

def version_script : String :=
  "import sys; print(\".\".join(str(v) for v in sys.version_info[:2]))"

def default_python_path : String := "/usr/bin/python"

/-- `get_default_python`, as a function of the subprocess outcome: on
success the version is the stripped stdout — the code performs no parsing
or validation of it. -/
def get_default_python (output : Option String) : Except PyError Python :=
  match output with
  | none => .error (.calledProcessError [default_python_path, "-c", version_script])
  | some out => .ok ⟨default_python_path, pyStrip out⟩

def get_default_pythonM (env : Env) : M Python := do
  M.emit (.runProc [default_python_path, "-c", version_script])
  M.ofExcept (get_default_python env.defaultPyOutput)

/-- Whole-name match of `python(?P<version>[0-9]+\.[0-9]+)` after the
literal `python` prefix: exactly one dot with nonempty digit runs on both
sides. -/
def isVersionShape (cs : List Char) : Bool :=
  match splitOnDot cs with
  | [a, b] => !a.isEmpty && !b.isEmpty && a.all isDigitChar && b.all isDigitChar
  | _ => false

/-- The version group of a `/usr/bin` entry name matching the interpreter
pattern, if any. -/
def pythonNameVersion (name : String) : Option String :=
  match name.data with
  | 'p' :: 'y' :: 't' :: 'h' :: 'o' :: 'n' :: rest =>
      if isVersionShape rest then some ⟨rest⟩ else none
  | _ => none

/-- `get_pythons`: list `/usr/bin`, keep interpreter-pattern names, sort
ascending by version key. -/
def get_pythonsM (env : Env) : M (List Python) := do
  let pythons := env.usrBinNames.filterMap fun name =>
    (pythonNameVersion name).map fun version =>
      Python.mk ("/usr/bin/" ++ name) version
  M.ofExcept (match sort_pythons pythons none with
    | some sorted => .ok sorted
    | none => .error .valueError)

/-- `iterate_pythons`: discovery, per-interpreter log line, then the
default-last ordering.  The generator body up to the first `yield` runs
before any interpreter is provisioned. -/
def iterate_pythonsM (env : Env) : M (List Python) := do
  display_sect "Finding Python interpreters"
  let default_python ← get_default_pythonM env
  let pythons ← get_pythonsM env
  pythons.forM fun python =>
    display_info (python.version ++
      (if python.version = default_python.version then " (default)" else ""))
  display_sect "Setting up Python interpreters"
  M.ofExcept (match sort_pythons pythons (some default_python) with
    | some sorted => .ok sorted
    | none => .error .valueError)

/-! ## `Pip._install_options_context` and the pip operations -/

/-- `os.unlink(os.path.expanduser('~/.pydistutils.cfg'))`. -/
def unlinkDistutilsCfg : M Unit := do
  let fs ← M.getFS
  if fs.distutilsCfg then M.setFS { fs with distutilsCfg := false }
  else M.throw (.fileNotFoundError "~/.pydistutils.cfg")

/-- `Pip._install_options_context`: for proxy-needing interpreter versions,
yield the extra index options and write `~/.pydistutils.cfg` first; the
`finally` block removes the file.  For other versions, yield no options and
touch nothing. -/
def withInstallOptions {α : Type} (proxyVersions : List String) (pythonVersion : String)
    (body : List String → M α) : M α := do
  let options := if pythonVersion ∈ proxyVersions then ["--index", Pip.PIP_INDEX] else []
  if pythonVersion ∈ proxyVersions then do
    let fs ← M.getFS
    M.setFS { fs with distutilsCfg := true }
  else pure ()
  tryFinallyM (body options)
    (if pythonVersion ∈ proxyVersions then unlinkDistutilsCfg else pure ())

/-- `Pip.setup`: install the pinned packages through the get-pip installer. -/
def Pip.setupM (env : Env) (pip : PipState) : M Unit :=
  let packages := pip.packages.map fun entry => entry.1 ++ "==" ++ entry.2
  let setup_options := ["--break-system-packages", "--no-setuptools", "--no-wheel"]
  withInstallOptions Pip.PIP_PROXY_VERSIONS pip.python.version fun options =>
    subprocessRun env
      (pipCommand pip.python ++ options ++ Pip.OPTIONS ++ setup_options ++ packages)

/-- `Pip.install`. -/
def Pip.installM (env : Env) (pip : PipState) (args : List String) : M Unit :=
  withInstallOptions Pip.PIP_PROXY_VERSIONS pip.python.version fun options =>
    subprocessRun env
      (pipCommand pip.python ++ ["install", "--break-system-packages"] ++ options ++
        Pip.OPTIONS ++ args)

/-- `Pip.wheel` (the temporary working directory does not interact with the
modelled state). -/
def Pip.wheelM (env : Env) (pip : PipState) (args : List String) : M Unit :=
  withInstallOptions Pip.PIP_PROXY_VERSIONS pip.python.version fun options =>
    subprocessRun env
      (pipCommand pip.python ++ ["wheel"] ++ options ++ Pip.OPTIONS ++ args)

/-- `Pip.show_version`. -/
def Pip.show_versionM (env : Env) (pip : PipState) : M Unit :=
  subprocessRun env (pipCommand pip.python ++ ["--version"] ++ Pip.OPTIONS)

/-- `Pip.check`. -/
def Pip.checkM (env : Env) (pip : PipState) : M Unit :=
  subprocessRun env (pipCommand pip.python ++ ["check"] ++ Pip.OPTIONS)

/-- `Pip.list`: run the list subprocess and parse its JSON output (the
parsed result is supplied by the environment). -/
def Pip.listM (env : Env) (pip : PipState) : M (List (String × String)) := do
  M.emit (.runProc (pipCommand pip.python ++ ["list", "--format=json"] ++ Pip.OPTIONS))
  match env.pipListOutput pip.python with
  | some items => pure items
  | none =>
      M.throw (.calledProcessError
        (pipCommand pip.python ++ ["list", "--format=json"] ++ Pip.OPTIONS))

/-- `Python.show_version`. -/
def Python.show_versionM (env : Env) (python : Python) : M Unit :=
  subprocessRun env [python.path, "--version"]

/-- `Pip.have_get_pip`: does the downloaded installer exist in `/tmp`? -/
def have_get_pipM (pip : PipState) : M Bool := do
  let fs ← M.getFS
  pure (decide (get_pip_path pip.version ∈ fs.tmpFiles))

/-- `Pip.download_get_pip`: fetch the installer into `/tmp`. -/
def download_get_pipM (env : Env) (pip : PipState) : M Unit := do
  let url := "https://ansible-ci-files.s3.amazonaws.com/ansible-test/get-pip-" ++
    pip.version ++ ".py"
  M.emit (.downloadFile url)
  if env.downloadOk url then do
    let fs ← M.getFS
    M.setFS { fs with tmpFiles := fs.tmpFiles ++ [get_pip_path pip.version] }
  else M.throw (.downloadError url)

/-! ## `setup.setup_python` and `setup.main` -/

/-- `setup.setup_python(python)`. -/
def setup_pythonM (env : Env) (python : Python) : M Unit := do
  display_sect ("Started setup of Python " ++ python.version)
  display_info python.path
  display_sect ("Checking full Python version for Python " ++ python.version)
  Python.show_versionM env python
  let pip ← M.ofExcept (Pip.init Pip.PACKAGES Pip.DEFAULT_PACKAGES python)
  let havePip ← have_get_pipM pip
  if !havePip then do
    display_sect ("Downloading pip " ++ pip.version)
    download_get_pipM env pip
  display_sect ("Installing pip " ++ pip.version ++ " for Python " ++ python.version)
  Pip.setupM env pip
  display_sect ("Checking full pip version for Python " ++ python.version)
  Pip.show_versionM env pip
  display_sect ("Checking pip integrity for Python " ++ python.version)
  Pip.checkM env pip
  display_sect ("Listing installed packages for Python " ++ python.version)
  let items ← Pip.listM env pip
  items.forM fun item => display_info (item.1 ++ " " ++ item.2)
  display_sect ("Completed setup of Python " ++ python.version)

/-- `os.unlink` of a `/tmp` entry during the final cleanup loop. -/
def removeTmpFile (path : String) : M Unit := do
  let fs ← M.getFS
  M.setFS { fs with tmpFiles := fs.tmpFiles.erase path }

/-- The body of `setup.main` after the clean-environment guard: provision
every interpreter in order, then remove and log leftover `/tmp` entries. -/
def main_body (env : Env) : M Unit := do
  let pythons ← iterate_pythonsM env
  pythons.forM (setup_pythonM env)
  let fs ← M.getFS
  fs.tmpFiles.forM fun path => do
    display_info ("Removing temporary file: " ++ path)
    removeTmpFile path

/-- `setup.main`: abort with the dirty-environment failure when `/tmp` is
not empty, otherwise run the provisioning body. -/
def mainM (env : Env) : M Unit := do
  let fs ← M.getFS
  if fs.tmpFiles ≠ [] then M.throw (.dirtyEnvironment fs.tmpFiles)
  else main_body env

/-- Run `setup.main` from the initial state described by the environment,
with an empty action trace. -/
def run_main (env : Env) : Except PyError Unit × FS × List Act :=
  mainM env (⟨env.tmpEntries, env.distutilsCfg0⟩, [])

/-! ## Concrete inputs used by witnesses and counterexamples -/

/-- An interpreter whose numeric version key exceeds the `(100,)` sentinel. -/
def pyHuge : Python := ⟨"/usr/bin/python100.5", "100.5"⟩

def py36 : Python := ⟨"/usr/bin/python3.6", "3.6"⟩

def py39 : Python := ⟨"/usr/bin/python3.9", "3.9"⟩

def py310 : Python := ⟨"/usr/bin/python3.10", "3.10"⟩

def defaultPy39 : Python := ⟨"/usr/bin/python", "3.9"⟩

/-- An environment with a clean `/tmp` and all external calls succeeding. -/
def cleanEnv : Env where
  tmpEntries := []
  distutilsCfg0 := false
  usrBinNames := ["python3.9", "python3.10", "sh"]
  defaultPyOutput := some "3.9\n"
  runOk := fun _ => true
  pipListOutput := fun _ => some [("pip", "24.2")]
  downloadOk := fun _ => true

/-- The same environment with a leftover file in `/tmp`. -/
def dirtyEnv : Env := { cleanEnv with tmpEntries := ["leftover.txt"] }

/-! # Theorems -/

/-! ## Traversal lemmas -/

theorem mapOption_eq_none_iff {α β : Type} (f : α → Option β) (l : List α) :
    mapOption f l = none ↔ ∃ a ∈ l, f a = none := by
  induction l with
  | nil => simp [mapOption]
  | cons a l ih =>
    rw [mapOption]
    cases hfa : f a with
    | none => simp [hfa]
    | some b =>
      cases hl : mapOption f l with
      | none =>
        simp only [hl]
        constructor
        · intro _
          obtain ⟨a', ha', hfa'⟩ := ih.mp hl
          exact ⟨a', List.mem_cons_of_mem a ha', hfa'⟩
        · intro _
          trivial
      | some bs =>
        simp only [hl]
        constructor
        · intro h
          exact absurd h (by simp)
        · rintro ⟨a', ha', hfa'⟩
          rcases List.mem_cons.mp ha' with rfl | ha'
          · rw [hfa] at hfa'
            exact absurd hfa' (by simp)
          · have : mapOption f l = none := (ih.mpr ⟨a', ha', hfa'⟩)
            rw [this] at hl
            exact absurd hl (by simp)

theorem mapOption_eq_some_iff {α β : Type} (f : α → Option β) :
    ∀ (l : List α) (l' : List β),
      mapOption f l = some l' ↔ List.Forall₂ (fun a b => f a = some b) l l' := by
  intro l
  induction l with
  | nil =>
    intro l'
    simp only [mapOption, Option.some_inj]
    constructor
    · rintro rfl
      exact List.Forall₂.nil
    · intro h
      cases h
      rfl
  | cons a l ih =>
    intro l'
    rw [mapOption]
    cases hfa : f a with
    | none =>
      constructor
      · intro h
        exact absurd h (by simp)
      · intro h
        cases h with
        | cons hab _ => rw [hfa] at hab; exact absurd hab (by simp)
    | some b =>
      cases hl : mapOption f l with
      | none =>
        constructor
        · intro h
          exact absurd h (by simp)
        · intro h
          cases h with
          | cons hab htail =>
            have := (ih _).mpr htail
            rw [this] at hl
            exact absurd hl (by simp)
      | some bs =>
        constructor
        · intro h
          have h' : b :: bs = l' := by
            simpa using h
          subst h'
          exact List.Forall₂.cons hfa ((ih bs).mp hl)
        · intro h
          cases h with
          | cons hab htail =>
            rw [hfa] at hab
            have hb : _ = b := (Option.some_inj.mp hab).symm
            have := (ih _).mpr htail
            rw [this] at hl
            have hbs := Option.some_inj.mp hl
            simp [← hb, hbs]

theorem mapExcept_eq_ok_iff {ε α β : Type} (f : α → Except ε β) :
    ∀ (l : List α) (l' : List β),
      mapExcept f l = .ok l' ↔ List.Forall₂ (fun a b => f a = .ok b) l l' := by
  intro l
  induction l with
  | nil =>
    intro l'
    simp only [mapExcept]
    constructor
    · intro h
      cases h
      exact List.Forall₂.nil
    · intro h
      cases h
      rfl
  | cons a l ih =>
    intro l'
    rw [mapExcept]
    cases hfa : f a with
    | error e =>
      constructor
      · intro h
        exact absurd h (by simp)
      · intro h
        cases h with
        | cons hab _ => rw [hfa] at hab; exact absurd hab (by simp)
    | ok b =>
      cases hl : mapExcept f l with
      | error e =>
        constructor
        · intro h
          exact absurd h (by simp)
        · intro h
          cases h with
          | cons hab htail =>
            have := (ih _).mpr htail
            rw [this] at hl
            exact absurd hl (by simp)
      | ok bs =>
        constructor
        · intro h
          have h' : b :: bs = l' := by
            simpa using h
          subst h'
          exact List.Forall₂.cons hfa ((ih bs).mp hl)
        · intro h
          cases h with
          | cons hab htail =>
            rw [hfa] at hab
            have hb : _ = b := (Except.ok.inj hab).symm
            have := (ih _).mpr htail
            rw [this] at hl
            have hbs := Except.ok.inj hl
            simp [← hb, hbs]

theorem mapExcept_isError_iff {ε α β : Type} (f : α → Except ε β) (l : List α) :
    (∃ e, mapExcept f l = .error e) ↔ ∃ a ∈ l, ∃ e, f a = .error e := by
  induction l with
  | nil => simp [mapExcept]
  | cons a l ih =>
    rw [mapExcept]
    cases hfa : f a with
    | error e => simp [hfa]
    | ok b =>
      cases hl : mapExcept f l with
      | error e =>
        simp only [hl]
        constructor
        · intro _
          obtain ⟨a', ha', he'⟩ := ih.mp ⟨e, hl⟩
          exact ⟨a', List.mem_cons_of_mem a ha', he'⟩
        · intro _
          exact ⟨e, rfl⟩
      | ok bs =>
        simp only [hl]
        constructor
        · rintro ⟨e, he⟩
          exact absurd he (by simp)
        · rintro ⟨a', ha', e', he'⟩
          rcases List.mem_cons.mp ha' with rfl | ha'
          · rw [hfa] at he'
            exact absurd he' (by simp)
          · obtain ⟨e'', he''⟩ := ih.mpr ⟨a', ha', e', he'⟩
            rw [he''] at hl
            exact absurd hl (by simp)

theorem mapOption_map_fst {α β : Type} (g : α → Option β) (l : List α) (keyed : List (α × β))
    (h : mapOption (fun a => (g a).map fun b => (a, b)) l = some keyed) :
    keyed.map Prod.fst = l ∧ ∀ q ∈ keyed, g q.1 = some q.2 := by
  have hf := (mapOption_eq_some_iff _ l keyed).mp h
  clear h
  induction hf with
  | nil => simp
  | cons hab htail ih =>
    rename_i a b l' keyed'
    cases hga : g a with
    | none => rw [hga] at hab; exact absurd hab (by simp)
    | some bv =>
      rw [hga] at hab
      have hb : (a, bv) = b := by
        simpa using hab
      subst hb
      obtain ⟨h1, h2⟩ := ih
      refine ⟨?_, ?_⟩
      · simp [h1]
      · intro q hq
        rcases List.mem_cons.mp hq with rfl | hq
        · exact hga
        · exact h2 q hq

/-! ## Version-key ordering lemmas -/

theorem pyListLt_cons_cons (x y : Int) (xs ys : List Int) :
    pyListLt (x :: xs) (y :: ys) =
      if x < y then true else if y < x then false else pyListLt xs ys := rfl

theorem pyListLt_irrefl (a : List Int) : pyListLt a a = false := by
  induction a with
  | nil => rfl
  | cons x xs ih =>
      rw [pyListLt_cons_cons, if_neg (lt_irrefl x), if_neg (lt_irrefl x), ih]

theorem pyListLt_trans (a b c : List Int) (hab : pyListLt a b = true)
    (hbc : pyListLt b c = true) : pyListLt a c = true := by
  induction a generalizing b c with
  | nil =>
    cases b with
    | nil => exact absurd hab (by rw [pyListLt]; exact Bool.false_ne_true)
    | cons y ys =>
      cases c with
      | nil => exact absurd hbc (by rw [pyListLt]; exact Bool.false_ne_true)
      | cons z zs => rfl
  | cons x xs ih =>
    cases b with
    | nil => exact absurd hab (by rw [pyListLt]; exact Bool.false_ne_true)
    | cons y ys =>
      cases c with
      | nil => exact absurd hbc (by rw [pyListLt]; exact Bool.false_ne_true)
      | cons z zs =>
        rw [pyListLt_cons_cons] at hab hbc ⊢
        rcases lt_trichotomy x y with hxy | hxy | hxy
        · rcases lt_trichotomy y z with hyz | hyz | hyz
          · rw [if_pos (hxy.trans hyz)]
          · subst hyz
            rw [if_pos hxy]
          · rw [if_neg (asymm hyz), if_pos hyz] at hbc
            exact absurd hbc Bool.false_ne_true
        · subst hxy
          rw [if_neg (lt_irrefl x), if_neg (lt_irrefl x)] at hab
          rcases lt_trichotomy x z with hxz | hxz | hxz
          · rw [if_pos hxz]
          · subst hxz
            rw [if_neg (lt_irrefl x), if_neg (lt_irrefl x)] at hbc ⊢
            exact ih ys zs hab hbc
          · rw [if_neg (asymm hxz), if_pos hxz] at hbc
            exact absurd hbc Bool.false_ne_true
        · rw [if_neg (asymm hxy), if_pos hxy] at hab
          exact absurd hab Bool.false_ne_true

theorem pyListLt_total (a b : List Int) :
    pyListLt a b = true ∨ a = b ∨ pyListLt b a = true := by
  induction a generalizing b with
  | nil =>
    cases b with
    | nil => exact Or.inr (Or.inl rfl)
    | cons y ys => exact Or.inl rfl
  | cons x xs ih =>
    cases b with
    | nil => exact Or.inr (Or.inr rfl)
    | cons y ys =>
      rcases lt_trichotomy x y with hxy | hxy | hxy
      · exact Or.inl (by rw [pyListLt_cons_cons, if_pos hxy])
      · subst hxy
        rcases ih ys with h | h | h
        · exact Or.inl (by
            rw [pyListLt_cons_cons, if_neg (lt_irrefl x), if_neg (lt_irrefl x), h])
        · exact Or.inr (Or.inl (by rw [h]))
        · exact Or.inr (Or.inr (by
            rw [pyListLt_cons_cons, if_neg (lt_irrefl x), if_neg (lt_irrefl x), h]))
      · exact Or.inr (Or.inr (by rw [pyListLt_cons_cons, if_pos hxy]))

theorem pyListLt_asymm (a b : List Int) (h : pyListLt a b = true) :
    pyListLt b a = false := by
  cases hba : pyListLt b a with
  | false => rfl
  | true =>
    have := pyListLt_trans a b a h hba
    rw [pyListLt_irrefl] at this
    exact absurd this Bool.false_ne_true

theorem pyListLe_trans (a b c : List Int) (hab : pyListLe a b = true)
    (hbc : pyListLe b c = true) : pyListLe a c = true := by
  simp only [pyListLe, Bool.not_eq_true'] at hab hbc ⊢
  cases hca : pyListLt c a with
  | false => rfl
  | true =>
    rcases pyListLt_total a b with h | h | h
    · have := pyListLt_trans c a b hca h
      rw [this] at hbc
      exact Bool.noConfusion hbc
    · subst h
      rw [hca] at hbc
      exact Bool.noConfusion hbc
    · rw [h] at hab
      exact Bool.noConfusion hab

theorem pyListLe_total (a b : List Int) :
    (pyListLe a b || pyListLe b a) = true := by
  simp only [pyListLe, Bool.or_eq_true, Bool.not_eq_true']
  rcases pyListLt_total a b with h | h | h
  · exact Or.inl (pyListLt_asymm a b h)
  · subst h
    exact Or.inl (pyListLt_irrefl a)
  · exact Or.inr (pyListLt_asymm b a h)

theorem pyListLe_of_not_lt (a b : List Int) (h : pyListLt b a = false) :
    pyListLe a b = true := by
  unfold pyListLe
  rw [h]
  rfl

theorem pyListLt_of_not_le (a b : List Int) (h : pyListLe a b = false) :
    pyListLt b a = true := by
  unfold pyListLe at h
  cases hba : pyListLt b a with
  | true => rfl
  | false =>
    rw [hba] at h
    exact Bool.noConfusion h

theorem pyListLt_pair_iff (x0 x1 y0 y1 : Int) :
    pyListLt [x0, x1] [y0, y1] = true ↔ (x0 < y0 ∨ (x0 = y0 ∧ x1 < y1)) := by
  rw [pyListLt_cons_cons]
  rcases lt_trichotomy x0 y0 with h | h | h
  · rw [if_pos h]
    simp [h]
  · subst h
    rw [if_neg (lt_irrefl x0), if_neg (lt_irrefl x0), pyListLt_cons_cons]
    rcases lt_trichotomy x1 y1 with h1 | h1 | h1
    · rw [if_pos h1]
      simp [h1]
    · subst h1
      rw [if_neg (lt_irrefl x1), if_neg (lt_irrefl x1)]
      simp [pyListLt]
    · rw [if_neg (asymm h1), if_pos h1]
      constructor
      · intro hh
        exact absurd hh Bool.false_ne_true
      · rintro (hh | ⟨-, hh⟩)
        · exact absurd hh (lt_irrefl x0)
        · exact absurd hh (asymm h1)
  · rw [if_neg (asymm h), if_pos h]
    constructor
    · intro hh
      exact absurd hh Bool.false_ne_true
    · rintro (hh | ⟨hh, -⟩)
      · exact absurd hh (asymm h)
      · exact absurd hh (ne_of_gt h)

/-- C5: comparison of parsed version keys (Python tuple comparison on the
integer tuples produced by `str_to_version`) is a strict total order —
irreflexive, transitive, total, asymmetric — and agrees with numeric,
component-wise comparison of the dot-separated components rather than
lexicographic string order; in particular
`parse("3.9") < parse("3.10") < parse("4.0")`. -/
theorem versionKey_strict_total_order (a b c : List Int) (x0 x1 y0 y1 : Int) :
    pyListLt a a = false ∧
    (pyListLt a b = true → pyListLt b c = true → pyListLt a c = true) ∧
    (pyListLt a b = true ∨ a = b ∨ pyListLt b a = true) ∧
    (pyListLt a b = true → pyListLt b a = false) ∧
    (pyListLt [x0, x1] [y0, y1] = true ↔ (x0 < y0 ∨ (x0 = y0 ∧ x1 < y1))) ∧
    str_to_version "3.9" = some [3, 9] ∧
    str_to_version "3.10" = some [3, 10] ∧
    str_to_version "4.0" = some [4, 0] ∧
    pyListLt [3, 9] [3, 10] = true ∧
    pyListLt [3, 10] [4, 0] = true :=
  ⟨pyListLt_irrefl a, pyListLt_trans a b c, pyListLt_total a b, pyListLt_asymm a b,
    pyListLt_pair_iff x0 x1 y0 y1, by decide, by decide, by decide, by decide, by decide⟩

/-- Witness for C5: transitivity applied at the version keys of
`"3.9"`, `"3.10"` and `"4.0"`. -/
theorem versionKey_strict_total_order_witness :
    pyListLt [3, 9] [4, 0] = true :=
  (versionKey_strict_total_order [3, 9] [3, 10] [4, 0] 0 0 0 0).2.1
    (by decide) (by decide)

/-! ## Decimal digit characters -/

theorem isDigitChar_decDigit (n : Nat) : isDigitChar (decDigit n) = true := by
  unfold decDigit
  split <;> decide

theorem digitVal_decDigit (n : Nat) (h : n < 10) : digitVal (decDigit n) = n := by
  interval_cases n <;> decide

theorem decDigit_ne_dot (n : Nat) : decDigit n ≠ '.' := by
  unfold decDigit
  split <;> decide

theorem decDigit_ne_plus (n : Nat) : decDigit n ≠ '+' := by
  unfold decDigit
  split <;> decide

theorem decDigit_ne_minus (n : Nat) : decDigit n ≠ '-' := by
  unfold decDigit
  split <;> decide

theorem pyIsSpace_decDigit (n : Nat) : pyIsSpace (decDigit n) = false := by
  unfold decDigit
  split <;> decide

/-! ## `splitOnDot` lemmas -/

theorem splitOnDot_ne_nil (l : List Char) : splitOnDot l ≠ [] := by
  induction l with
  | nil => simp [splitOnDot]
  | cons c rest ih =>
    rw [splitOnDot]
    cases h : splitOnDot rest with
    | nil => simp
    | cons g gs =>
      by_cases hc : c = '.' <;> simp [hc]

theorem splitOnDot_no_dot (l : List Char) (h : ∀ c ∈ l, c ≠ '.') :
    splitOnDot l = [l] := by
  induction l with
  | nil => rfl
  | cons c rest ih =>
    rw [splitOnDot, ih fun x hx => h x (List.mem_cons_of_mem c hx)]
    simp [h c (List.mem_cons_self c rest)]

theorem splitOnDot_append_dot (l r : List Char) (h : ∀ c ∈ l, c ≠ '.') :
    splitOnDot (l ++ '.' :: r) = l :: splitOnDot r := by
  induction l with
  | nil =>
    simp only [List.nil_append]
    rw [splitOnDot]
    cases hr : splitOnDot r with
    | nil => exact absurd hr (splitOnDot_ne_nil r)
    | cons g gs => simp
  | cons c l ih =>
    simp only [List.cons_append]
    rw [splitOnDot, ih fun x hx => h x (List.mem_cons_of_mem c hx)]
    simp [h c (List.mem_cons_self c l)]

/-! ## `str.strip()` lemmas -/

theorem dropWhile_all_false {α : Type} (p : α → Bool) (l : List α)
    (h : ∀ c ∈ l, p c = false) : l.dropWhile p = l := by
  cases l with
  | nil => rfl
  | cons a l => simp [List.dropWhile_cons, h a (List.mem_cons_self a l)]

theorem pyStripChars_eq_self (cs : List Char) (h : ∀ c ∈ cs, pyIsSpace c = false) :
    pyStripChars cs = cs := by
  unfold pyStripChars
  rw [dropWhile_all_false _ _ h,
    dropWhile_all_false _ _ fun c hc => h c (List.mem_reverse.mp hc),
    List.reverse_reverse]

/-! ## Decimal round-trip lemmas -/

theorem pyDigits_cons (c : Char) (rest : List Char) :
    pyDigits (c :: rest) =
      if isDigitChar c then pyDigitsCore rest (digitVal c) else none := rfl

theorem decDigit_ne_underscore (n : Nat) : decDigit n ≠ '_' := by
  unfold decDigit
  split <;> decide

theorem pyDigitsCore_cons_ne (c : Char) (rest : List Char) (acc : Nat) (hne : c ≠ '_') :
    pyDigitsCore (c :: rest) acc =
      if isDigitChar c then pyDigitsCore rest (acc * 10 + digitVal c) else none := by
  rw [pyDigitsCore.eq_def]
  split
  · rename_i heq
    exact List.noConfusion heq
  · rename_i c' rest' heq
    injection heq with h1 h2
    exact absurd h1 hne
  · rename_i heq
    injection heq with h1 h2
    exact absurd h1 hne
  · rename_i c' rest' heq
    injection heq with h1 h2
    rw [h1, h2]

theorem pyDigitsCore_decDigit (d : Nat) (rest : List Char) (acc : Nat) :
    pyDigitsCore (decDigit d :: rest) acc =
      pyDigitsCore rest (acc * 10 + digitVal (decDigit d)) := by
  rw [pyDigitsCore_cons_ne _ _ _ (decDigit_ne_underscore d),
    if_pos (isDigitChar_decDigit d)]

theorem natReprAux_congr (n : Nat) : ∀ f1 f2 : Nat, n < f1 → n < f2 →
    natReprAux f1 n = natReprAux f2 n := by
  induction n using Nat.strong_induction_on with
  | _ n ih =>
    intro f1 f2 h1 h2
    cases f1 with
    | zero => omega
    | succ g1 =>
      cases f2 with
      | zero => omega
      | succ g2 =>
        rw [natReprAux, natReprAux]
        by_cases hn : n < 10
        · rw [if_pos hn, if_pos hn]
        · rw [if_neg hn, if_neg hn]
          have hd : n / 10 < n := Nat.div_lt_self (by omega) (by omega)
          rw [ih (n / 10) hd g1 g2 (by omega) (by omega)]

theorem natReprChars_lt10 (n : Nat) (h : n < 10) : natReprChars n = [decDigit n] := by
  unfold natReprChars
  rw [natReprAux, if_pos h]

theorem natReprChars_ge10 (n : Nat) (h : 10 ≤ n) :
    natReprChars n = natReprChars (n / 10) ++ [decDigit (n % 10)] := by
  unfold natReprChars
  rw [natReprAux, if_neg (by omega)]
  have hd : n / 10 < n := Nat.div_lt_self (by omega) (by omega)
  rw [natReprAux_congr (n / 10) n (n / 10 + 1) hd (by omega)]

theorem natReprChars_ne_nil (n : Nat) : natReprChars n ≠ [] := by
  by_cases h : n < 10
  · rw [natReprChars_lt10 n h]
    simp
  · rw [natReprChars_ge10 n (by omega)]
    simp

theorem natReprChars_mem (n : Nat) : ∀ c ∈ natReprChars n, ∃ d, c = decDigit d := by
  induction n using Nat.strong_induction_on with
  | _ n ih =>
    by_cases h : n < 10
    · rw [natReprChars_lt10 n h]
      intro c hc
      rw [List.mem_singleton] at hc
      exact ⟨n, hc⟩
    · rw [natReprChars_ge10 n (by omega)]
      intro c hc
      rcases List.mem_append.mp hc with hc | hc
      · exact ih (n / 10) (Nat.div_lt_self (by omega) (by omega)) c hc
      · rw [List.mem_singleton] at hc
        exact ⟨n % 10, hc⟩

theorem pyDigits_natRepr_append (n : Nat) : ∀ rest : List Char,
    pyDigits (natReprChars n ++ rest) = pyDigitsCore rest n := by
  induction n using Nat.strong_induction_on with
  | _ n ih =>
    intro rest
    by_cases h : n < 10
    · rw [natReprChars_lt10 n h, List.singleton_append, pyDigits_cons,
        if_pos (isDigitChar_decDigit n), digitVal_decDigit n h]
    · have h10 : 10 ≤ n := by omega
      rw [natReprChars_ge10 n h10, List.append_assoc, List.singleton_append,
        ih (n / 10) (Nat.div_lt_self (by omega) (by omega)) (decDigit (n % 10) :: rest),
        pyDigitsCore_decDigit, digitVal_decDigit (n % 10) (Nat.mod_lt n (by omega))]
      have heq : n / 10 * 10 + n % 10 = n := by omega
      rw [heq]

theorem pyDigits_natReprChars (n : Nat) : pyDigits (natReprChars n) = some n := by
  have h := pyDigits_natRepr_append n []
  rw [List.append_nil] at h
  rw [h]
  rfl

theorem pyStripChars_natReprChars (n : Nat) :
    pyStripChars (natReprChars n) = natReprChars n := by
  apply pyStripChars_eq_self
  intro c hc
  obtain ⟨d, rfl⟩ := natReprChars_mem n c hc
  exact pyIsSpace_decDigit d

theorem pyIntChars_natReprChars (n : Nat) :
    pyIntChars (natReprChars n) = some (Int.ofNat n) := by
  unfold pyIntChars
  rw [pyStripChars_natReprChars]
  cases hne : natReprChars n with
  | nil => exact absurd hne (natReprChars_ne_nil n)
  | cons c rest =>
    obtain ⟨d, hd⟩ := natReprChars_mem n c (by rw [hne]; exact List.mem_cons_self c rest)
    subst hd
    split
    · rename_i rest' heq
      injection heq with h1 h2
      exact absurd h1 (decDigit_ne_plus d)
    · rename_i rest' heq
      injection heq with h1 h2
      exact absurd h1 (decDigit_ne_minus d)
    · rw [← hne, pyDigits_natReprChars n]
      rfl

theorem string_data_append (s t : String) : (s ++ t).data = s.data ++ t.data := rfl

/-- C6: for every input string, `str_to_version` fails (raising
`MalformedVersion`, modelled by `none`) exactly when some dot-separated
component is not parsable as a base-10 integer by Python `int`; when every
component parses, the result is the tuple of those integers, component by
component. -/
theorem str_to_version_components (version : String) :
    (str_to_version version = none ↔
      ∃ comp ∈ splitOnDot version.data, pyIntChars comp = none) ∧
    ∀ key, str_to_version version = some key ↔
      List.Forall₂ (fun comp value => pyIntChars comp = some value)
        (splitOnDot version.data) key :=
  ⟨mapOption_eq_none_iff pyIntChars (splitOnDot version.data),
    fun key => mapOption_eq_some_iff pyIntChars (splitOnDot version.data) key⟩

/-- C8: for every version string of the canonical form `"N.M"` (two
dot-separated decimal numerals), parsing with `str_to_version` succeeds with
the two numeric components, and re-serializing the key (joining the decimal
components with a dot, as the code renders versions) returns the original
string exactly. -/
theorem version_roundtrip (n m : Nat) :
    str_to_version (natRepr n ++ "." ++ natRepr m) = some [(n : Int), (m : Int)] ∧
    serializeVersion [(n : Int), (m : Int)] = natRepr n ++ "." ++ natRepr m := by
  have hn : ∀ c ∈ natReprChars n, c ≠ '.' := by
    intro c hc
    obtain ⟨d, rfl⟩ := natReprChars_mem n c hc
    exact decDigit_ne_dot d
  have hm : ∀ c ∈ natReprChars m, c ≠ '.' := by
    intro c hc
    obtain ⟨d, rfl⟩ := natReprChars_mem m c hc
    exact decDigit_ne_dot d
  have hdot : ".".data = ['.'] := rfl
  have hdata : (natRepr n ++ "." ++ natRepr m).data =
      natReprChars n ++ '.' :: natReprChars m := by
    rw [string_data_append, string_data_append, hdot]
    simp [natRepr]
  constructor
  · unfold str_to_version
    rw [hdata, splitOnDot_append_dot _ _ hn, splitOnDot_no_dot _ hm]
    simp [mapOption, pyIntChars_natReprChars]
  · unfold serializeVersion
    have h1 : intRepr (n : Int) = natRepr n := by
      unfold intRepr
      rw [if_neg (by omega)]
      simp
    have h2 : intRepr (m : Int) = natRepr m := by
      unfold intRepr
      rw [if_neg (by omega)]
      simp
    simp only [List.map]
    rw [h1, h2]
    rfl

/-! ## Sorting lemmas and claim C1 -/

theorem sortKey_of_default (d p : Python) (h : p.version = d.version) :
    sortKey d p = some [100] := by
  unfold sortKey
  rw [if_pos h]

theorem sortKey_of_nondefault (d p : Python) (h : ¬p.version = d.version) :
    sortKey d p = str_to_version p.version := by
  unfold sortKey
  rw [if_neg h]

/-- C1 (amended): for every interpreter list and designated default, provided
every non-default interpreter's version parses to a key strictly below the
`(100,)` sentinel, `sort_pythons(pythons, last)` succeeds and returns the
interpreters ascending by numeric version key with every interpreter whose
version equals the default's version strictly last.  (Without the sentinel
bound the claim is false: see the counterexample.) -/
theorem sort_pythons_default_last (l : List Python) (d : Python)
    (h : ∀ p ∈ l, p.version ≠ d.version → versionBelowSentinel p = true) :
    ∃ result, sort_pythons l (some d) = some result ∧ defaultLastOrdered d l result := by
  cases hk : mapOption (fun item => (sortKey d item).map fun k => (item, k)) l with
  | none =>
    exfalso
    obtain ⟨p, hp, hpn⟩ := (mapOption_eq_none_iff _ _).mp hk
    cases hsk : sortKey d p with
    | some k =>
      rw [hsk] at hpn
      simp at hpn
    | none =>
      by_cases hv : p.version = d.version
      · rw [sortKey_of_default d p hv] at hsk
        exact Option.noConfusion hsk
      · have hb := h p hp hv
        unfold versionBelowSentinel at hb
        rw [sortKey_of_nondefault d p hv] at hsk
        rw [hsk] at hb
        exact Bool.noConfusion hb
  | some keyed =>
    obtain ⟨hfst, hkeys⟩ := mapOption_map_fst (sortKey d) l keyed hk
    letI : IsTotal (Python × List Int) keyedLe := ⟨fun a b => by
      unfold keyedLe
      cases hab : pyListLe a.2 b.2 with
      | true => exact Or.inl rfl
      | false =>
        have htot := pyListLe_total a.2 b.2
        rw [hab] at htot
        simp at htot
        exact Or.inr htot⟩
    letI : IsTrans (Python × List Int) keyedLe := ⟨fun a b c hab hbc =>
      pyListLe_trans a.2 b.2 c.2 hab hbc⟩
    have hperm : (List.insertionSort keyedLe keyed).Perm keyed :=
      List.perm_insertionSort keyedLe keyed
    have hsorted : List.Pairwise keyedLe (List.insertionSort keyedLe keyed) :=
      List.sorted_insertionSort keyedLe keyed
    have hmemkeys : ∀ q ∈ List.insertionSort keyedLe keyed, sortKey d q.1 = some q.2 :=
      fun q hq => hkeys q (hperm.mem_iff.mp hq)
    have hmemin : ∀ q ∈ List.insertionSort keyedLe keyed, q.1 ∈ l := by
      intro q hq
      rw [← hfst]
      exact List.mem_map_of_mem Prod.fst (hperm.mem_iff.mp hq)
    have hkey_default : ∀ q ∈ List.insertionSort keyedLe keyed,
        q.1.version = d.version → q.2 = [100] := by
      intro q hq hv
      have hsk := hmemkeys q hq
      rw [sortKey_of_default d q.1 hv] at hsk
      exact (Option.some_inj.mp hsk).symm
    have hkey_nond : ∀ q ∈ List.insertionSort keyedLe keyed, q.1.version ≠ d.version →
        str_to_version q.1.version = some q.2 ∧ pyListLt q.2 [100] = true := by
      intro q hq hv
      have hsk := hmemkeys q hq
      rw [sortKey_of_nondefault d q.1 hv] at hsk
      refine ⟨hsk, ?_⟩
      have hb := h q.1 (hmemin q hq) hv
      unfold versionBelowSentinel at hb
      rw [hsk] at hb
      exact hb
    have hstrong : List.Pairwise
        (fun q q' : Python × List Int =>
          (q.1.version = d.version → q'.1.version = d.version) ∧
          (q.1.version ≠ d.version → q'.1.version ≠ d.version → verLeB q.1 q'.1 = true))
        (List.insertionSort keyedLe keyed) := by
      refine List.Pairwise.imp_of_mem ?_ hsorted
      intro q q' hq hq' hle
      constructor
      · intro hv
        by_contra hv'
        have h100 := hkey_default q hq hv
        obtain ⟨-, hlt⟩ := hkey_nond q' hq' hv'
        unfold keyedLe at hle
        rw [h100] at hle
        unfold pyListLe at hle
        rw [hlt] at hle
        exact Bool.noConfusion hle
      · intro hv hv'
        obtain ⟨hq1, -⟩ := hkey_nond q hq hv
        obtain ⟨hq2, -⟩ := hkey_nond q' hq' hv'
        unfold keyedLe at hle
        unfold verLeB
        rw [hq1, hq2]
        exact hle
    refine ⟨(List.insertionSort keyedLe keyed).map Prod.fst, ?_, ?_⟩
    · have hdef : sort_pythons l (some d) =
          (mapOption (fun item => (sortKey d item).map fun k => (item, k)) l).map
            (fun keyed => (keyed.insertionSort keyedLe).map Prod.fst) := rfl
      rw [hdef, hk]
      rfl
    · unfold defaultLastOrdered
      refine ⟨?_, ?_, ?_⟩
      · rw [← hfst]
        exact hperm.map Prod.fst
      · exact List.Pairwise.map Prod.fst (fun a b hab => hab.1) hstrong
      · have hres : List.Pairwise (fun x y : Python =>
            x.version ≠ d.version → y.version ≠ d.version → verLeB x y = true)
            ((List.insertionSort keyedLe keyed).map Prod.fst) :=
          List.Pairwise.map Prod.fst (fun a b hab => hab.2) hstrong
        refine List.Pairwise.imp_of_mem ?_
          (List.Pairwise.sublist (List.filter_sublist _) hres)
        intro x y hx hy hxy
        have hx' : x.version ≠ d.version := by
          have := (List.mem_filter.mp hx).2
          simpa using this
        have hy' : y.version ≠ d.version := by
          have := (List.mem_filter.mp hy).2
          simpa using this
        exact hxy hx' hy'

/-- Witness for C1 (amended): the end-to-end scenario of the spec — versions
`3.6`, `3.9`, `3.10` with default `3.9` provision in the order
`3.6, 3.10, 3.9` — together with the amended theorem applied to it. -/
theorem sort_pythons_default_last_witness :
    sort_pythons [py36, py39, py310] (some defaultPy39) = some [py36, py310, py39] ∧
    (∃ result, sort_pythons [py36, py39, py310] (some defaultPy39) = some result ∧
      defaultLastOrdered defaultPy39 [py36, py39, py310] result) :=
  ⟨by decide, sort_pythons_default_last [py36, py39, py310] defaultPy39 (by decide)⟩

/-- Counterexample for C1 as stated: with an interpreter whose numeric
version key `(100, 5)` is not below the `(100,)` sentinel, the interpreter
matching the default version is NOT placed last — `sort_pythons` puts the
default-version interpreter before `python100.5`. -/
theorem sort_pythons_sentinel_counterexample :
    sort_pythons [pyHuge, py39] (some defaultPy39) = some [py39, pyHuge] ∧
    pyHuge.version ≠ defaultPy39.version ∧
    py39.version = defaultPy39.version ∧
    ¬defaultLastOrdered defaultPy39 [pyHuge, py39] [py39, pyHuge] := by
  refine ⟨by decide, by decide, rfl, ?_⟩
  intro hcl
  obtain ⟨-, hpw, -⟩ := hcl
  have hrel := List.rel_of_pairwise_cons hpw (List.mem_cons_self pyHuge [])
  have h39 : py39.version = defaultPy39.version := rfl
  exact absurd (hrel h39) (by decide)

/-! ## Association-list and pin-resolution lemmas -/

theorem lookup_of_mem_nodup {β : Type} (d : List (String × β))
    (hnd : (d.map Prod.fst).Nodup) (entry : String × β) (hm : entry ∈ d) :
    d.lookup entry.1 = some entry.2 := by
  induction d with
  | nil => exact absurd hm (List.not_mem_nil entry)
  | cons a d ih =>
    rw [List.map_cons, List.nodup_cons] at hnd
    obtain ⟨a1, a2⟩ := a
    rcases List.mem_cons.mp hm with rfl | hm'
    · rw [List.lookup_cons]
      simp
    · have hne : entry.1 ≠ a1 := by
        intro hcontra
        have hmem : entry.1 ∈ List.map Prod.fst d := List.mem_map_of_mem Prod.fst hm'
        rw [hcontra] at hmem
        exact hnd.1 hmem
      rw [List.lookup_cons]
      have hbeq : (entry.1 == a1) = false := beq_eq_false_iff_ne.mpr hne
      rw [hbeq]
      exact ih hnd.2 hm'

theorem mapExcept_error_source {ε α β : Type} (f : α → Except ε β) (l : List α) (e : ε)
    (h : mapExcept f l = .error e) : ∃ a ∈ l, f a = .error e := by
  induction l with
  | nil => exact absurd h (by simp [mapExcept])
  | cons a l ih =>
    rw [mapExcept] at h
    cases hfa : f a with
    | error e' =>
      rw [hfa] at h
      injection h with h1
      exact ⟨a, List.mem_cons_self a l, by rw [hfa, h1]⟩
    | ok b =>
      rw [hfa] at h
      cases hl : mapExcept f l with
      | error e' =>
        rw [hl] at h
        injection h with h1
        obtain ⟨a', ha', he'⟩ := ih (by rw [hl, h1])
        exact ⟨a', List.mem_cons_of_mem a ha', he'⟩
      | ok bs =>
        rw [hl] at h
        exact absurd h (by simp)

theorem substPin_error (d : List (String × String)) (entry : String × String) (e : PyError)
    (h : substPin d entry = .error e) :
    e = .keyError entry.1 ∧ entry.2 = "" ∧ d.lookup entry.1 = none := by
  unfold substPin at h
  by_cases hfalsy : entry.2 = ""
  · rw [if_pos hfalsy] at h
    cases hd : d.lookup entry.1 with
    | some v =>
      rw [hd] at h
      exact absurd h (by simp)
    | none =>
      rw [hd] at h
      injection h with h1
      exact ⟨h1.symm, hfalsy, rfl⟩
  · rw [if_neg hfalsy] at h
    exact absurd h (by simp)

theorem substPin_error_iff (d : List (String × String)) (entry : String × String) :
    (∃ e, substPin d entry = .error e) ↔ entry.2 = "" ∧ d.lookup entry.1 = none := by
  constructor
  · rintro ⟨e, he⟩
    exact (substPin_error d entry e he).2
  · rintro ⟨hfalsy, hd⟩
    refine ⟨.keyError entry.1, ?_⟩
    unfold substPin
    rw [if_pos hfalsy, hd]

theorem substPin_ok (d : List (String × String)) (entry out : String × String)
    (h : substPin d entry = .ok out) :
    out.1 = entry.1 ∧ (entry.2 ≠ "" → out.2 = entry.2) ∧
      (entry.2 = "" → d.lookup entry.1 = some out.2) := by
  unfold substPin at h
  by_cases hfalsy : entry.2 = ""
  · rw [if_pos hfalsy] at h
    cases hd : d.lookup entry.1 with
    | some v =>
      rw [hd] at h
      injection h with h1
      refine ⟨by rw [← h1], fun hc => absurd hfalsy hc, fun _ => ?_⟩
      rw [← h1]
    | none =>
      rw [hd] at h
      exact absurd h (by simp)
  · rw [if_neg hfalsy] at h
    injection h with h1
    exact ⟨by rw [← h1], fun _ => by rw [← h1], fun hc => absurd hc hfalsy⟩

theorem substPin_self (d : List (String × String)) (hnd : (d.map Prod.fst).Nodup)
    (entry : String × String) (hm : entry ∈ d) : substPin d entry = .ok entry := by
  unfold substPin
  by_cases hfalsy : entry.2 = ""
  · rw [if_pos hfalsy, lookup_of_mem_nodup d hnd entry hm]
  · rw [if_neg hfalsy]

/-- C4: pin resolution returns the default pin set when the interpreter
version has no override entry; for a listed version it returns the override
entries with every absent ("use default", falsy) version substituted from
the default table, failing with `UnpinnedPackage` (a `KeyError`) exactly
when some falsy entry's package name is absent from the default table. -/
theorem resolvePackages_spec (pt : List (String × List (String × String)))
    (d : List (String × String)) (v : String) :
    (pt.lookup v = none → (d.map Prod.fst).Nodup → resolvePackages pt d v = .ok d) ∧
    (∀ ovr, pt.lookup v = some ovr →
      ((∃ e, resolvePackages pt d v = .error e) ↔
        ∃ entry ∈ ovr, entry.2 = "" ∧ d.lookup entry.1 = none) ∧
      (∀ e, resolvePackages pt d v = .error e → ∃ name, e = .keyError name ∧
        d.lookup name = none) ∧
      (∀ res, resolvePackages pt d v = .ok res →
        List.Forall₂ (fun entry out => out.1 = entry.1 ∧
          (entry.2 ≠ "" → out.2 = entry.2) ∧
          (entry.2 = "" → d.lookup entry.1 = some out.2)) ovr res)) := by
  constructor
  · intro hnone hnd
    unfold resolvePackages
    rw [hnone]
    show mapExcept (substPin d) d = .ok d
    rw [mapExcept_eq_ok_iff]
    rw [List.forall₂_same]
    exact fun entry hm => substPin_self d hnd entry hm
  · intro ovr hovr
    have hres : resolvePackages pt d v = mapExcept (substPin d) ovr := by
      unfold resolvePackages
      rw [hovr]
      rfl
    refine ⟨?_, ?_, ?_⟩
    · rw [hres]
      rw [mapExcept_isError_iff]
      constructor
      · rintro ⟨entry, hm, he⟩
        exact ⟨entry, hm, (substPin_error_iff d entry).mp he⟩
      · rintro ⟨entry, hm, hprop⟩
        exact ⟨entry, hm, (substPin_error_iff d entry).mpr hprop⟩
    · intro e he
      rw [hres] at he
      obtain ⟨entry, hm, hse⟩ := mapExcept_error_source (substPin d) ovr e he
      obtain ⟨h1, h2, h3⟩ := substPin_error d entry e hse
      exact ⟨entry.1, h1, h3⟩
    · intro res hok
      rw [hres] at hok
      have hf := (mapExcept_eq_ok_iff (substPin d) ovr res).mp hok
      exact List.Forall₂.imp (fun entry out hab => substPin_ok d entry out hab) hf

/-- Witness for C4: the unlisted version `"3.7"` resolves to exactly the
shipped default pin set, and a listed override with a falsy pip pin is
backfilled from the defaults. -/
theorem resolvePackages_spec_witness :
    resolvePackages [] Pip.DEFAULT_PACKAGES "3.7" = .ok Pip.DEFAULT_PACKAGES ∧
    List.Forall₂ (fun entry out => out.1 = entry.1 ∧
        (entry.2 ≠ "" → out.2 = entry.2) ∧
        (entry.2 = "" → List.lookup entry.1 [("pip", "24.2")] = some out.2))
      [("pip", ""), ("six", "1.0")] [("pip", "24.2"), ("six", "1.0")] :=
  ⟨(resolvePackages_spec [] Pip.DEFAULT_PACKAGES "3.7").1 rfl (by decide),
    ((resolvePackages_spec [("2.6", [("pip", ""), ("six", "1.0")])]
        [("pip", "24.2")] "2.6").2 [("pip", ""), ("six", "1.0")] (by decide)).2.2
      [("pip", "24.2"), ("six", "1.0")] rfl⟩

/-- C9: with the shipped tables (`_PACKAGES` empty, `_DEFAULT_PACKAGES`
pinning pip), `Pip.__init__` succeeds for every interpreter, the resolved
pin set contains exactly the pip pin `24.2`, and `self.version` equals that
pin; in general, when the resolved pin set lacks a `'pip'` entry the
constructor fails with a `KeyError`. -/
theorem pip_init_spec (python : Python) :
    Pip.init Pip.PACKAGES Pip.DEFAULT_PACKAGES python =
      .ok ⟨python, [("pip", "24.2")], "24.2"⟩ ∧
    (∀ st, Pip.init Pip.PACKAGES Pip.DEFAULT_PACKAGES python = .ok st →
      st.packages.lookup "pip" = some st.version) ∧
    (∀ pt d pkgs, resolvePackages pt d python.version = .ok pkgs →
      pkgs.lookup "pip" = none → Pip.init pt d python = .error (.keyError "pip")) := by
  refine ⟨rfl, ?_, ?_⟩
  · intro st hst
    have h : st = ⟨python, [("pip", "24.2")], "24.2"⟩ := by
      have hmix := hst.symm.trans (rfl :
        Pip.init Pip.PACKAGES Pip.DEFAULT_PACKAGES python =
          .ok ⟨python, [("pip", "24.2")], "24.2"⟩)
      exact Except.ok.inj hmix
    rw [h]
    rfl
  · intro pt d pkgs hres hlookup
    simp only [Pip.init, hres, hlookup]

/-- Witness for C9: instantiated at a concrete interpreter, and the failure
case at a table whose resolved pins lack pip. -/
theorem pip_init_spec_witness :
    Pip.init Pip.PACKAGES Pip.DEFAULT_PACKAGES py39 =
      .ok ⟨py39, [("pip", "24.2")], "24.2"⟩ ∧
    Pip.init [("3.9", [("six", "1.0")])] [("pip", "24.2")] py39 =
      .error (.keyError "pip") :=
  ⟨(pip_init_spec py39).1,
    (pip_init_spec py39).2.2 [("3.9", [("six", "1.0")])] [("pip", "24.2")]
      [("six", "1.0")] rfl rfl⟩

/-! ## Claim C7: the default-interpreter query -/

/-- C7 (amended): determining the default interpreter invokes the OS-default
binary with the one-line version-reporting command; it fails (with the
subprocess error) exactly when the subprocess exits non-zero, and on success
it returns the interpreter with version equal to the stripped standard
output — the code performs no parsing or validation of that output. -/
theorem get_default_python_spec (output : Option String) :
    (output = none → get_default_python output =
      .error (.calledProcessError [default_python_path, "-c", version_script])) ∧
    (∀ s, output = some s →
      get_default_python output = .ok ⟨default_python_path, pyStrip s⟩) := by
  constructor
  · rintro rfl
    rfl
  · rintro s rfl
    rfl

/-- Witness for C7 (amended): the failing subprocess and a successful query. -/
theorem get_default_python_spec_witness :
    get_default_python none =
      .error (.calledProcessError [default_python_path, "-c", version_script]) ∧
    get_default_python (some " 3.12\n") = .ok ⟨default_python_path, pyStrip " 3.12\n"⟩ :=
  ⟨(get_default_python_spec none).1 rfl,
    (get_default_python_spec (some " 3.12\n")).2 " 3.12\n" rfl⟩

/-- Counterexample for C7 as stated: on output that is not parsable as a
`major.minor` version the code does not fail — it returns the interpreter
with the garbage output as its version string. -/
theorem get_default_python_no_validation :
    get_default_python (some "oops\n") = .ok ⟨"/usr/bin/python", "oops"⟩ ∧
    str_to_version "oops" = none := by
  constructor
  · decide
  · decide


/-! ## Monad application lemmas -/

theorem M.bind_apply {α β : Type} (x : M α) (f : α → M β) (s : FS × List Act) :
    (x >>= f) s = match x s with
      | (.ok a, fs, tr) => f a (fs, tr)
      | (.error e, fs, tr) => (.error e, fs, tr) := rfl

theorem M.pure_apply {α : Type} (a : α) (s : FS × List Act) :
    (pure a : M α) s = (.ok a, s.1, s.2) := rfl

theorem unlinkDistutilsCfg_apply (fs : FS) (tr : List Act) :
    unlinkDistutilsCfg (fs, tr) =
      if fs.distutilsCfg then (.ok (), { fs with distutilsCfg := false }, tr)
      else (.error (.fileNotFoundError "~/.pydistutils.cfg"), fs, tr) := by
  show (if fs.distutilsCfg then M.setFS { fs with distutilsCfg := false }
    else M.throw (.fileNotFoundError "~/.pydistutils.cfg")) (fs, tr) = _
  cases fs.distutilsCfg <;> rfl

theorem subprocessRun_apply (env : Env) (argv : List String) (s : FS × List Act) :
    subprocessRun env argv s =
      if env.runOk argv then (.ok (), s.1, s.2 ++ [.runProc argv])
      else (.error (.calledProcessError argv), s.1, s.2 ++ [.runProc argv]) := by
  show (if env.runOk argv then (pure () : M Unit)
    else M.throw (.calledProcessError argv)) (s.1, s.2 ++ [.runProc argv]) = _
  cases env.runOk argv <;> rfl

theorem subprocessRun_fs (env : Env) (argv : List String) (s : FS × List Act) :
    (subprocessRun env argv s).2.1 = s.1 := by
  rw [subprocessRun_apply]
  cases env.runOk argv <;> rfl

/-! ## Claim C3: the install-options scope -/

theorem withInstallOptions_mem {α : Type} (pv : List String) (v : String)
    (body : List String → M α) (fs : FS) (tr : List Act) (hv : v ∈ pv) :
    withInstallOptions pv v body (fs, tr) =
      tryFinallyM (body ["--index", Pip.PIP_INDEX]) unlinkDistutilsCfg
        ({ fs with distutilsCfg := true }, tr) := by
  unfold withInstallOptions
  rw [if_pos hv, if_pos hv, if_pos hv]
  rfl

theorem withInstallOptions_not_mem {α : Type} (pv : List String) (v : String)
    (body : List String → M α) (fs : FS) (tr : List Act) (hv : v ∉ pv) :
    withInstallOptions pv v body (fs, tr) = body [] (fs, tr) := by
  unfold withInstallOptions
  rw [if_neg hv, if_neg hv, if_neg hv]
  show tryFinallyM (body []) (pure ()) (fs, tr) = body [] (fs, tr)
  unfold tryFinallyM
  rcases hb : body [] (fs, tr) with ⟨res, fs', tr'⟩
  rfl

theorem tryFinallyM_unlink_cfg {α : Type} (body : M α) (s : FS × List Act) :
    ((tryFinallyM body unlinkDistutilsCfg) s).2.1.distutilsCfg = false := by
  unfold tryFinallyM
  rcases hb : body s with ⟨res, fs', tr'⟩
  show (match unlinkDistutilsCfg (fs', tr') with
    | (.ok _, fs2, tr2) => (res, fs2, tr2)
    | (.error e2, fs2, tr2) => (.error e2, fs2, tr2)).2.1.distutilsCfg = false
  rw [unlinkDistutilsCfg_apply]
  cases hcfg : fs'.distutilsCfg with
  | true => rfl
  | false => exact hcfg

/-- C3: on exit of the install-options scope — whether the protected body
succeeded or raised — the legacy configuration file is removed exactly when
the scope wrote it: for a version in the proxy-needing set the scope writes
the file, passes the extra index options to the body, and the file does not
exist after exit regardless of the body's outcome; for any other version
the scope yields no extra options and is the identity on the state — it
neither writes nor removes the file. -/
theorem installOptions_cleanup (pv : List String) (v : String)
    (body : List String → M Unit) (fs : FS) (tr : List Act) :
    (v ∈ pv →
      withInstallOptions pv v body (fs, tr) =
        tryFinallyM (body ["--index", Pip.PIP_INDEX]) unlinkDistutilsCfg
          ({ fs with distutilsCfg := true }, tr) ∧
      ((withInstallOptions pv v body) (fs, tr)).2.1.distutilsCfg = false) ∧
    (v ∉ pv → withInstallOptions pv v body (fs, tr) = body [] (fs, tr)) := by
  constructor
  · intro hv
    have heq := withInstallOptions_mem pv v body fs tr hv
    refine ⟨heq, ?_⟩
    rw [heq]
    exact tryFinallyM_unlink_cfg _ _
  · intro hv
    exact withInstallOptions_not_mem pv v body fs tr hv

/-- Witness for C3: a version inside a (hypothetical) proxy set leaves no
configuration file behind; a version outside it runs the body untouched. -/
theorem installOptions_cleanup_witness :
    ((withInstallOptions ["2.6"] "2.6" (fun _ => (pure () : M Unit)))
      (⟨[], false⟩, [])).2.1.distutilsCfg = false ∧
    withInstallOptions ["2.6"] "3.9" (fun _ => (pure () : M Unit)) (⟨[], false⟩, []) =
      (pure () : M Unit) (⟨[], false⟩, []) :=
  ⟨((installOptions_cleanup ["2.6"] "2.6" (fun _ => pure ()) ⟨[], false⟩ []).1
      (by decide)).2,
    (installOptions_cleanup ["2.6"] "3.9" (fun _ => pure ()) ⟨[], false⟩ []).2
      (by decide)⟩

/-! ## Claim C10: the shipped proxy set is empty, so the scope is inert -/

/-- C10: the shipped `PIP_PROXY_VERSIONS` tuple is empty, so for every
interpreter version the install-options scope yields an empty extra-options
list and is the identity on the filesystem state around its body; hence
`setup`, `install` and `wheel` (whose bodies are subprocess invocations,
which do not touch the modelled filesystem) leave the whole filesystem
state — in particular `~/.pydistutils.cfg` — untouched. -/
theorem shipped_scope_inert :
    Pip.PIP_PROXY_VERSIONS = ([] : List String) ∧
    (∀ (v : String) (body : List String → M Unit) (fs : FS) (tr : List Act),
      withInstallOptions Pip.PIP_PROXY_VERSIONS v body (fs, tr) = body [] (fs, tr)) ∧
    (∀ (env : Env) (pip : PipState) (fs : FS) (tr : List Act),
      ((Pip.setupM env pip) (fs, tr)).2.1 = fs) ∧
    (∀ (env : Env) (pip : PipState) (args : List String) (fs : FS) (tr : List Act),
      ((Pip.installM env pip args) (fs, tr)).2.1 = fs) ∧
    (∀ (env : Env) (pip : PipState) (args : List String) (fs : FS) (tr : List Act),
      ((Pip.wheelM env pip args) (fs, tr)).2.1 = fs) := by
  have hnotmem : ∀ v : String, v ∉ Pip.PIP_PROXY_VERSIONS := by
    intro v
    simp [Pip.PIP_PROXY_VERSIONS]
  refine ⟨rfl, ?_, ?_, ?_, ?_⟩
  · intro v body fs tr
    exact withInstallOptions_not_mem _ v body fs tr (hnotmem v)
  · intro env pip fs tr
    show ((withInstallOptions Pip.PIP_PROXY_VERSIONS pip.python.version fun options =>
      subprocessRun env (pipCommand pip.python ++ options ++ Pip.OPTIONS ++
        ["--break-system-packages", "--no-setuptools", "--no-wheel"] ++
        pip.packages.map fun entry => entry.1 ++ "==" ++ entry.2)) (fs, tr)).2.1 = fs
    rw [withInstallOptions_not_mem _ _ _ _ _ (hnotmem pip.python.version)]
    exact subprocessRun_fs env _ (fs, tr)
  · intro env pip args fs tr
    show ((withInstallOptions Pip.PIP_PROXY_VERSIONS pip.python.version fun options =>
      subprocessRun env (pipCommand pip.python ++ ["install", "--break-system-packages"] ++
        options ++ Pip.OPTIONS ++ args)) (fs, tr)).2.1 = fs
    rw [withInstallOptions_not_mem _ _ _ _ _ (hnotmem pip.python.version)]
    exact subprocessRun_fs env _ (fs, tr)
  · intro env pip args fs tr
    show ((withInstallOptions Pip.PIP_PROXY_VERSIONS pip.python.version fun options =>
      subprocessRun env (pipCommand pip.python ++ ["wheel"] ++ options ++
        Pip.OPTIONS ++ args)) (fs, tr)).2.1 = fs
    rw [withInstallOptions_not_mem _ _ _ _ _ (hnotmem pip.python.version)]
    exact subprocessRun_fs env _ (fs, tr)

/-! ## Claim C2: the clean-temporary-directory guard in `setup.main` -/

/-- C2: when `/tmp` contains any entry at the start of the run, `main`
aborts with the dirty-environment failure before doing anything at all —
the final state is the initial one and the action trace is empty (no
display output, no download, no subprocess); when `/tmp` is empty, the run
proceeds into the provisioning body. -/
theorem main_guard (env : Env) :
    (env.tmpEntries ≠ [] →
      run_main env = (.error (.dirtyEnvironment env.tmpEntries),
        ⟨env.tmpEntries, env.distutilsCfg0⟩, [])) ∧
    (env.tmpEntries = [] →
      run_main env = main_body env (⟨[], env.distutilsCfg0⟩, [])) := by
  constructor
  · intro h
    show (if env.tmpEntries ≠ [] then M.throw (.dirtyEnvironment env.tmpEntries)
      else main_body env) (⟨env.tmpEntries, env.distutilsCfg0⟩, []) = _
    rw [if_pos h]
    rfl
  · intro h
    show (if env.tmpEntries ≠ [] then M.throw (.dirtyEnvironment env.tmpEntries)
      else main_body env) (⟨env.tmpEntries, env.distutilsCfg0⟩, []) = _
    rw [if_neg (by simp [h]), h]

/-- Witness for C2: a leftover file aborts the run with an empty trace; an
empty temporary directory hands control to the provisioning body. -/
theorem main_guard_witness :
    run_main dirtyEnv = (.error (.dirtyEnvironment ["leftover.txt"]),
      ⟨["leftover.txt"], false⟩, []) ∧
    run_main cleanEnv = main_body cleanEnv (⟨[], false⟩, []) :=
  ⟨(main_guard dirtyEnv).1 (by decide), (main_guard cleanEnv).2 rfl⟩
